import Mathlib

/-!
Verification development for the Taxfolio transaction-processing backend.

The data model and the upload service are embedded from
`backend/src/services/upload_service.go` (both the cache-backed,
per-user implementation and the earlier in-memory singleton variant).
The processors package (stock / option / cash / dividend matchers) and
the models package are not part of the provided sources; where a claim
depends on them they are modelled from the specification, and each such
definition carries a doc comment starting with `Modelled from the spec:`.

Conventions of the embedding:
* Go slices are modelled by `GoSlice`, which tracks nil-ness separately
  from the element list (a Go `nil` slice and an empty non-nil slice
  differ).
* Monetary quantities are exact rationals (the spec demands fixed-point
  arithmetic with no floating drift).
* Calendar dates are day ordinals (`Nat`); the source orders rows by
  `date ASC, id ASC` at day granularity.
* Fallible operations return `Except Err`; the database is an explicit
  list of rows threaded through the functions that touch it.
-/

namespace Taxfolio

/-- Model of a Go slice: `isNil` distinguishes the `nil` slice from an
empty non-nil slice (`[]T{}`); `toList` is the sequence of elements. -/
structure GoSlice (α : Type) where
  isNil : Bool
  toList : List α
  deriving DecidableEq

/-- The non-nil empty slice `[]T{}`. -/
def GoSlice.empty {α : Type} : GoSlice α := ⟨false, []⟩

/-- The Go `nil` slice, as produced by `var xs []T`. -/
def GoSlice.nilSlice {α : Type} : GoSlice α := ⟨true, []⟩

/-- Go `append(s, a)`: the result is always non-nil. -/
def GoSlice.push {α : Type} (s : GoSlice α) (a : α) : GoSlice α :=
  ⟨false, s.toList ++ [a]⟩

/-- Model of Go `strings.ToLower` restricted to ASCII (the order-type
strings compared in the source are all ASCII). -/
def goToLower (s : String) : String :=
  ⟨s.data.map Char.toLower⟩

/-- One row of the source file as parsed by the CSV parser; untyped
string-ish fields, discarded after normalization. -/
structure RawTransaction where
  fields : List String
  deriving DecidableEq

/-- Canonical transaction record, with the fields read and written by
`fetchUserProcessedTransactions` / `ProcessUpload` in
`upload_service.go` (`id, date, product_name, isin, quantity,
original_quantity, price, order_type, transaction_type, description,
amount, currency, commission, order_id, exchange_rate, amount_eur,
country_code`). -/
structure ProcessedTransaction where
  id : Nat
  date : Nat
  productName : String
  isin : String
  quantity : ℚ
  originalQuantity : ℚ
  price : ℚ
  orderType : String
  transactionType : String
  description : String
  amount : ℚ
  currency : String
  commission : ℚ
  orderID : String
  exchangeRate : ℚ
  amountEUR : ℚ
  countryCode : String
  deriving DecidableEq

/-- Modelled from the spec: `models.PurchaseLot` (models package not
under the provided sources) — an open stock position slice with
acquisition date, remaining quantity and EUR unit cost. -/
structure PurchaseLot where
  identity : String
  acquisitionDate : Nat
  quantityRemaining : ℚ
  unitCostEUR : ℚ
  currency : String
  deriving DecidableEq

/-- Modelled from the spec: `models.SaleDetail` (models package not
under the provided sources) — one realized disposal slice; `oversold`
is the flag set when the sale was matched against the implicit
zero-cost lot. -/
structure SaleDetail where
  identity : String
  saleDate : Nat
  acquisitionDate : Nat
  quantity : ℚ
  proceedsEUR : ℚ
  costBasisEUR : ℚ
  oversold : Bool
  deriving DecidableEq

/-- Contract type of an option. -/
inductive ContractType where
  | call
  | put
  deriving DecidableEq

/-- Direction of an open option lot. -/
inductive OptionDirection where
  | long
  | short
  deriving DecidableEq

/-- How an option position was closed. -/
inductive OptionCloseState where
  | sold
  | assigned
  | exercised
  | expired
  deriving DecidableEq

/-- Modelled from the spec: `models.OptionHolding` (models package not
under the provided sources) — an open option lot keyed by contract
identity, strike, expiry and contract type, with its direction. -/
structure OptionHolding where
  contractId : String
  contractType : ContractType
  strike : ℚ
  expiry : Nat
  direction : OptionDirection
  openDate : Nat
  quantityRemaining : ℚ
  deriving DecidableEq

/-- Modelled from the spec: `models.OptionSaleDetail` (models package
not under the provided sources) — a closed option position slice with
the state tag for how it was closed. -/
structure OptionSaleDetail where
  contractId : String
  contractType : ContractType
  strike : ℚ
  expiry : Nat
  quantity : ℚ
  closeDate : Nat
  state : OptionCloseState
  deriving DecidableEq

/-- Modelled from the spec: `models.CashMovement` (models package not
under the provided sources) — one cash in/out record. -/
structure CashMovement where
  date : Nat
  amountEUR : ℚ
  currency : String
  deriving DecidableEq

/-- Modelled from the spec: one entry of `models.DividendTaxResult` —
accumulated gross dividend, withholding tax and net amount for one
(instrument, tax year) group, in EUR. -/
structure DividendTaxEntry where
  instrument : String
  year : Nat
  grossEUR : ℚ
  withheldEUR : ℚ
  netEUR : ℚ
  deriving DecidableEq

/-- Modelled from the spec: `models.DividendTaxResult`, a map from
(instrument identity, tax year) to accumulated amounts; association
list model. -/
def DividendTaxResult := List DividendTaxEntry

instance : DecidableEq DividendTaxResult :=
  inferInstanceAs (DecidableEq (List DividendTaxEntry))

/-- The empty summary produced by `make(models.DividendTaxResult)`. -/
def emptyDividendTaxResult : DividendTaxResult := []

/-! ### Transaction Normalizer (spec-modelled EUR conversion) -/

/-- Modelled from the spec: the EUR conversion of the Transaction
Normalizer (parsers package not under the provided sources);
`amountEUR = amount × exchangeRate`, computed in exact fixed-point
(rational) arithmetic. -/
def computeAmountEUR (amount exchangeRate : ℚ) : ℚ :=
  amount * exchangeRate

/-- Modelled from the spec: the normalizer assignment of the
`amountEUR` field on a canonical record. -/
def normalizeAmountEUR (t : ProcessedTransaction) : ProcessedTransaction :=
  { t with amountEUR := computeAmountEUR t.amount t.exchangeRate }

/-! ### Stock Lot Matcher (spec-modelled) -/

/-- Instrument identity: the ISIN, falling back to the product name
when the ISIN is empty. -/
def identityOf (t : ProcessedTransaction) : String :=
  if t.isin = "" then t.productName else t.isin

/-- Modelled from the spec: EUR unit cost of a new lot created by a
buy — price (converted to EUR) plus the commission allocable per
unit. -/
def unitCostOfBuy (t : ProcessedTransaction) : ℚ :=
  t.price * t.exchangeRate +
    (if t.quantity = 0 then 0 else t.commission / t.quantity)

/-- Total remaining quantity over a list of open lots. -/
def sumQty (lots : List PurchaseLot) : ℚ :=
  (lots.map (·.quantityRemaining)).sum

/-- Modelled from the spec: FIFO consumption of open lots by one sale
(StockProcessor not under the provided sources). Walks the lot queue
from the front; every partial consumption produces its own SaleDetail
with cost basis `quantity taken × unit cost of that lot` and a
pro-rata share `totalProceeds × quantity / totalQty` of the proceeds.
When the queue is exhausted first, the shortfall is matched against an
implicit zero-cost lot dated at the sale date and the resulting
SaleDetail is flagged (`oversold = true`). -/
def consumeFIFO (ident : String) (saleDate : Nat) (totalQty totalProceeds : ℚ) :
    ℚ → List PurchaseLot → List SaleDetail × List PurchaseLot
  | remaining, [] =>
    if remaining ≤ 0 then ([], [])
    else ([⟨ident, saleDate, saleDate, remaining,
            totalProceeds * remaining / totalQty, 0, true⟩], [])
  | remaining, lot :: rest =>
    if remaining ≤ 0 then ([], lot :: rest)
    else if lot.quantityRemaining ≤ remaining then
      let d : SaleDetail :=
        ⟨ident, saleDate, lot.acquisitionDate, lot.quantityRemaining,
         totalProceeds * lot.quantityRemaining / totalQty,
         lot.quantityRemaining * lot.unitCostEUR, false⟩
      let res := consumeFIFO ident saleDate totalQty totalProceeds
        (remaining - lot.quantityRemaining) rest
      (d :: res.1, res.2)
    else
      let d : SaleDetail :=
        ⟨ident, saleDate, lot.acquisitionDate, remaining,
         totalProceeds * remaining / totalQty,
         remaining * lot.unitCostEUR, false⟩
      ([d], { lot with quantityRemaining := lot.quantityRemaining - remaining } :: rest)

/-- Per-instrument open-lot queues, in first-encounter order. -/
def LotMap := List (String × List PurchaseLot)

/-- Open lots currently held for one instrument. -/
def lookupLots (m : LotMap) (k : String) : List PurchaseLot :=
  match m with
  | [] => []
  | (k0, v0) :: rest => if k0 = k then v0 else lookupLots rest k

/-- Replace the lot queue of one instrument, keeping first-encounter
order. -/
def updateLots (m : LotMap) (k : String) (v : List PurchaseLot) : LotMap :=
  match m with
  | [] => [(k, v)]
  | (k0, v0) :: rest =>
      if k0 = k then (k, v) :: rest else (k0, v0) :: updateLots rest k v

/-- Modelled from the spec: one step of the Stock Lot Matcher. A buy
appends a new lot to its instrument queue; a sell consumes from the
front of the queue via `consumeFIFO`; other order types leave the
stock state untouched. -/
def stockStep (st : List SaleDetail × LotMap) (t : ProcessedTransaction) :
    List SaleDetail × LotMap :=
  let ident := identityOf t
  let ot := goToLower t.orderType
  if ot = "buy" then
    let lot : PurchaseLot := ⟨ident, t.date, |t.quantity|, unitCostOfBuy t, t.currency⟩
    (st.1, updateLots st.2 ident (lookupLots st.2 ident ++ [lot]))
  else if ot = "sell" then
    let qty := |t.quantity|
    let proceeds := |t.amountEUR|
    let res := consumeFIFO ident t.date qty proceeds qty (lookupLots st.2 ident)
    (st.1 ++ res.1, updateLots st.2 ident res.2)
  else st

/-- Modelled from the spec: `StockProcessor.Process` — a pure function
from the ordered transaction sequence to (realized sale details, open
holdings); recomputes from scratch on every call. -/
def stockProcess (txs : List ProcessedTransaction) :
    List SaleDetail × List PurchaseLot :=
  let st := txs.foldl stockStep ([], [])
  (st.1, st.2.foldl (fun acc p => acc ++ p.2) [])

/-! ### Option Lot Matcher (spec-modelled) -/

/-- Kinds of option transitions distinguished by the spec. -/
inductive OptionEventKind where
  | openEvt
  | closeEvt
  | assignEvt
  | exerciseEvt
  | expireEvt
  deriving DecidableEq

/-- Modelled from the spec: an option transaction as seen by the
Option Lot Matcher — the canonical record together with the contract
identity key (contract id, strike, expiry, contract type) and the
transition kind. Quantity is in contracts, signed (negative =
sell-to-open / decrease). -/
structure OptionEvent where
  kind : OptionEventKind
  date : Nat
  contractId : String
  contractType : ContractType
  strike : ℚ
  expiry : Nat
  quantity : ℚ
  deriving DecidableEq

/-- Key match between an event and an open option lot. -/
def optionKeyMatch (e : OptionEvent) (h : OptionHolding) : Bool :=
  decide (h.contractId = e.contractId ∧ h.strike = e.strike ∧
    h.expiry = e.expiry ∧ h.contractType = e.contractType)

/-- Direction of the synthetic equity transaction emitted for an
assignment or exercise: a short call assigned or a long put exercised
delivers stock (sell); a short put assigned or a long call exercised
receives stock (buy). -/
def assignmentIsBuy (dir : OptionDirection) (ct : ContractType) : Bool :=
  match dir, ct with
  | .short, .call => false
  | .short, .put => true
  | .long, .call => true
  | .long, .put => false

/-- Modelled from the spec: the synthetic equity ProcessedTransaction
emitted by an assignment or exercise — quantity = contracts × 100,
price = strike, dated at the assignment/exercise date. -/
def syntheticEquityTx (isBuy : Bool) (ident : String) (qty price : ℚ)
    (date : Nat) : ProcessedTransaction :=
  { id := 0, date := date, productName := ident, isin := ident,
    quantity := qty, originalQuantity := qty, price := price,
    orderType := if isBuy then "buy" else "sell",
    transactionType := "synthetic", description := "",
    amount := (if isBuy then -(qty * price) else qty * price),
    currency := "EUR", commission := 0, orderID := "",
    exchangeRate := 1,
    amountEUR := (if isBuy then -(qty * price) else qty * price),
    countryCode := "" }

/-- Remove the first element satisfying the predicate, returning it
and the remaining list. -/
def findAndRemove (p : OptionHolding → Bool) :
    List OptionHolding → Option (OptionHolding × List OptionHolding)
  | [] => none
  | h :: rest =>
    if p h then some (h, rest)
    else match findAndRemove p rest with
      | none => none
      | some (x, ys) => some (x, h :: ys)

/-- State threaded by the Option Lot Matcher: realized option sale
details, open option lots (FIFO per key, flat list in open order),
synthetic equity transactions emitted so far, and the count of skipped
unmatched events. -/
structure OptionState where
  details : List OptionSaleDetail
  holdings : List OptionHolding
  synthetic : List ProcessedTransaction
  skipped : Nat
  deriving DecidableEq

/-- Modelled from the spec: FIFO consumption of matching option lots
by a close transition; each consumed slice yields an OptionSaleDetail
with state `sold`; non-matching lots are kept in place. -/
def consumeOptionFIFO (e : OptionEvent) :
    ℚ → List OptionHolding → List OptionSaleDetail × List OptionHolding
  | _, [] => ([], [])
  | remaining, h :: rest =>
    if remaining ≤ 0 then ([], h :: rest)
    else if optionKeyMatch e h then
      if h.quantityRemaining ≤ remaining then
        let d : OptionSaleDetail :=
          ⟨h.contractId, h.contractType, h.strike, h.expiry,
           h.quantityRemaining, e.date, .sold⟩
        let res := consumeOptionFIFO e (remaining - h.quantityRemaining) rest
        (d :: res.1, res.2)
      else
        let d : OptionSaleDetail :=
          ⟨h.contractId, h.contractType, h.strike, h.expiry,
           remaining, e.date, .sold⟩
        ([d], { h with quantityRemaining := h.quantityRemaining - remaining } :: rest)
    else
      let res := consumeOptionFIFO e remaining rest
      (res.1, h :: res.2)

/-- Modelled from the spec: one step of the Option Lot Matcher. Open
creates a lot with its direction; close consumes FIFO (state `sold`);
assignment/exercise consumes the full remaining quantity of the first
matching lot, records state `assigned`/`exercised` and emits a
synthetic equity transaction (quantity = contracts × 100, price =
strike); expiry consumes the full remaining quantity with state
`expired` and no synthetic transaction; an assignment, exercise or
expiry with no matching open lot is skipped and counted. -/
def optionStep (st : OptionState) (e : OptionEvent) : OptionState :=
  match e.kind with
  | .openEvt =>
    let dir : OptionDirection := if e.quantity < 0 then .short else .long
    { st with holdings := st.holdings ++
        [⟨e.contractId, e.contractType, e.strike, e.expiry, dir, e.date, |e.quantity|⟩] }
  | .closeEvt =>
    let res := consumeOptionFIFO e |e.quantity| st.holdings
    { st with details := st.details ++ res.1, holdings := res.2 }
  | .assignEvt =>
    match findAndRemove (optionKeyMatch e) st.holdings with
    | none => { st with skipped := st.skipped + 1 }
    | some (h, rest) =>
      let d : OptionSaleDetail :=
        ⟨h.contractId, h.contractType, h.strike, h.expiry,
         h.quantityRemaining, e.date, .assigned⟩
      let tx := syntheticEquityTx (assignmentIsBuy h.direction h.contractType)
        h.contractId (h.quantityRemaining * 100) e.strike e.date
      { st with details := st.details ++ [d], holdings := rest,
                synthetic := st.synthetic ++ [tx] }
  | .exerciseEvt =>
    match findAndRemove (optionKeyMatch e) st.holdings with
    | none => { st with skipped := st.skipped + 1 }
    | some (h, rest) =>
      let d : OptionSaleDetail :=
        ⟨h.contractId, h.contractType, h.strike, h.expiry,
         h.quantityRemaining, e.date, .exercised⟩
      let tx := syntheticEquityTx (assignmentIsBuy h.direction h.contractType)
        h.contractId (h.quantityRemaining * 100) e.strike e.date
      { st with details := st.details ++ [d], holdings := rest,
                synthetic := st.synthetic ++ [tx] }
  | .expireEvt =>
    match findAndRemove (optionKeyMatch e) st.holdings with
    | none => { st with skipped := st.skipped + 1 }
    | some (h, rest) =>
      let d : OptionSaleDetail :=
        ⟨h.contractId, h.contractType, h.strike, h.expiry,
         h.quantityRemaining, e.date, .expired⟩
      { st with details := st.details ++ [d], holdings := rest }

/-- Modelled from the spec: `OptionProcessor.Process` over the ordered
option events of one user. -/
def optionProcessEvents (evts : List OptionEvent) : OptionState :=
  evts.foldl optionStep ⟨[], [], [], 0⟩

/-- Modelled from the spec: deterministic merge of the synthetic
equity transactions into the stock matcher input — ordered by date,
and on equal dates the natively-recorded transaction sorts before the
synthetic one. -/
def mergeSynthetic (native synth : List ProcessedTransaction) :
    List ProcessedTransaction :=
  match native, synth with
  | [], ss => ss
  | n :: ns, [] => n :: ns
  | n :: ns, s :: ss =>
    if n.date ≤ s.date then n :: mergeSynthetic ns (s :: ss)
    else s :: mergeSynthetic (n :: ns) ss
termination_by native.length + synth.length

/-! ### Persistence model and ordered fetch
(`fetchUserProcessedTransactions`, `upload_service.go` lines 65-101) -/

/-- One row of the `processed_transactions` table: the owning user and
the stored record (whose `id` is the table's insertion id). -/
structure DBRow where
  userID : Int
  tx : ProcessedTransaction
  deriving DecidableEq

/-- The relational store of processed transactions. -/
abbrev DB := List DBRow

/-- The fixed read order of `fetchUserProcessedTransactions`:
`ORDER BY date ASC, id ASC`. -/
def txFetchLE (a b : ProcessedTransaction) : Prop :=
  a.date < b.date ∨ (a.date = b.date ∧ a.id ≤ b.id)

instance : DecidableRel txFetchLE := fun a b => by
  unfold txFetchLE; infer_instance

instance : IsTotal ProcessedTransaction txFetchLE :=
  ⟨by intro a b; unfold txFetchLE; omega⟩

instance : IsTrans ProcessedTransaction txFetchLE :=
  ⟨by intro a b c; unfold txFetchLE; omega⟩

/-- Embedding of `fetchUserProcessedTransactions`: the rows of one
user, read back in the fixed order `date ASC, id ASC`. -/
def fetchUserProcessedTransactions (db : DB) (u : Int) :
    List ProcessedTransaction :=
  List.insertionSort txFetchLE
    ((db.filter (fun r => decide (r.userID = u))).map (·.tx))

/-! ### Upload service data (cache-backed implementation) -/

/-- Embedding of `services.UploadResult` with the six collection
fields assembled by `ProcessUpload` / `GetLatestUploadResult`. -/
structure UploadResult where
  stockSaleDetails : GoSlice SaleDetail
  stockHoldings : GoSlice PurchaseLot
  optionSaleDetails : GoSlice OptionSaleDetail
  optionHoldings : GoSlice OptionHolding
  cashMovements : GoSlice CashMovement
  dividendTransactionsList : GoSlice ProcessedTransaction
  deriving DecidableEq

/-- The all-empty, all-non-nil result literal built by the empty-input
branches of the service. -/
def emptyUploadResult : UploadResult :=
  ⟨.empty, .empty, .empty, .empty, .empty, .empty⟩

/-- The injected processor dependencies of `uploadServiceImpl`
(interfaces of the processors package); each is a pure function of the
transaction sequence. -/
structure Processors where
  stockProcessFn :
    List ProcessedTransaction → GoSlice SaleDetail × GoSlice PurchaseLot
  optionProcessFn :
    List ProcessedTransaction → GoSlice OptionSaleDetail × GoSlice OptionHolding
  cashProcessFn : List ProcessedTransaction → GoSlice CashMovement
  calculateTaxSummary : List ProcessedTransaction → DividendTaxResult

/-- Error taxonomy surfaced by the upload service. -/
inductive Err where
  | parsingFailed
  | processingFailed
  | beginFailed
  | prepareFailed
  | insertFailed
  | commitFailed
  | noUploadYet
  deriving DecidableEq

/-- Values stored in the report cache (one constructor per Go type
asserted after `reportCache.Get`). -/
inductive CachedValue where
  | uploadRes (r : UploadResult)
  | stockSales (l : GoSlice SaleDetail)
  | stockHold (l : GoSlice PurchaseLot)
  | optionSales (l : GoSlice OptionSaleDetail)
  | optionHold (l : GoSlice OptionHolding)
  | divSummary (s : DividendTaxResult)
  | divTxns (l : GoSlice ProcessedTransaction)

/-- The report cache, keyed by strings; TTL is not modelled (it only
affects when an entry is absent, which the embedding quantifies over
directly). -/
def Cache := String → Option CachedValue

/-- Cache with no entries (the no-op cache). -/
def emptyCache : Cache := fun _ => none

/-- Go type assertion `.(*UploadResult)` on a cache lookup. -/
def asUploadRes : Option CachedValue → Option UploadResult
  | some (.uploadRes r) => some r
  | _ => none

/-- Go type assertion `.([]models.SaleDetail)` on a cache lookup. -/
def asStockSales : Option CachedValue → Option (GoSlice SaleDetail)
  | some (.stockSales l) => some l
  | _ => none

/-- Go type assertion `.([]models.PurchaseLot)` on a cache lookup. -/
def asStockHold : Option CachedValue → Option (GoSlice PurchaseLot)
  | some (.stockHold l) => some l
  | _ => none

/-- Go type assertion `.([]models.OptionSaleDetail)` on a cache
lookup. -/
def asOptionSales : Option CachedValue → Option (GoSlice OptionSaleDetail)
  | some (.optionSales l) => some l
  | _ => none

/-- Go type assertion `.([]models.OptionHolding)` on a cache lookup. -/
def asOptionHold : Option CachedValue → Option (GoSlice OptionHolding)
  | some (.optionHold l) => some l
  | _ => none

/-- Go type assertion `.(models.DividendTaxResult)` on a cache
lookup. -/
def asDivSummary : Option CachedValue → Option DividendTaxResult
  | some (.divSummary s) => some s
  | _ => none

/-- Go type assertion `.([]models.ProcessedTransaction)` on a cache
lookup. -/
def asDivTxns : Option CachedValue → Option (GoSlice ProcessedTransaction)
  | some (.divTxns l) => some l
  | _ => none

/-- `reportCache.Set`. -/
def cacheSet (c : Cache) (k : String) (v : CachedValue) : Cache :=
  fun k2 => if k2 = k then some v else c k2

/-- `reportCache.Delete`. -/
def cacheDelete (c : Cache) (k : String) : Cache :=
  fun k2 => if k2 = k then none else c k2

/-- Cache key `latest_upload_result_user_%d`. -/
def ckLatestUploadResult (u : Int) : String :=
  "latest_upload_result_user_" ++ toString u

/-- Cache key `stock_sales_user_%d`. -/
def ckStockSales (u : Int) : String := "stock_sales_user_" ++ toString u

/-- Cache key `option_sales_user_%d`. -/
def ckOptionSales (u : Int) : String := "option_sales_user_" ++ toString u

/-- Cache key `dividend_summary_user_%d`. -/
def ckDividendSummary (u : Int) : String :=
  "dividend_summary_user_" ++ toString u

/-- Cache key `stock_holdings_user_%d`. -/
def ckStockHoldings (u : Int) : String :=
  "stock_holdings_user_" ++ toString u

/-- Cache key `option_holdings_user_%d`. -/
def ckOptionHoldings (u : Int) : String :=
  "option_holdings_user_" ++ toString u

/-- Cache key `dividend_txns_user_%d`. -/
def ckDividendTxns (u : Int) : String := "dividend_txns_user_" ++ toString u

/-- Embedding of `InvalidateUserCache`: deletes the seven per-user
keys. -/
def invalidateUserCache (c : Cache) (u : Int) : Cache :=
  [ckLatestUploadResult u, ckStockSales u, ckOptionSales u,
   ckDividendSummary u, ckStockHoldings u, ckOptionHoldings u,
   ckDividendTxns u].foldl cacheDelete c

/-- The dividend-or-dividendtax test applied by the service
(`strings.ToLower(tx.OrderType)` compared with the two literals). -/
def isDividendTx (t : ProcessedTransaction) : Bool :=
  let l := goToLower t.orderType
  decide (l = "dividend") || decide (l = "dividendtax")

/-- The dividend-list accumulation loop of the service: append every
transaction passing `isDividendTx` to the starting slice, preserving
order. -/
def appendDividends (init : GoSlice ProcessedTransaction)
    (txs : List ProcessedTransaction) : GoSlice ProcessedTransaction :=
  txs.foldl (fun s t => if isDividendTx t then s.push t else s) init

/-- The report computed from a transaction sequence by the non-empty
path of `GetLatestUploadResult` (`upload_service.go` lines 268-291):
stock, option and cash processor outputs plus the dividend transaction
list accumulated from a `var` (nil) slice. -/
def computeUserReport (P : Processors) (txs : List ProcessedTransaction) :
    UploadResult :=
  { stockSaleDetails := (P.stockProcessFn txs).1,
    stockHoldings := (P.stockProcessFn txs).2,
    optionSaleDetails := (P.optionProcessFn txs).1,
    optionHoldings := (P.optionProcessFn txs).2,
    cashMovements := P.cashProcessFn txs,
    dividendTransactionsList := appendDividends GoSlice.nilSlice txs }

/-! ### Cache-backed getters (`upload_service.go` lines 235-456) -/

/-- Embedding of `GetLatestUploadResult`: cache hit of the right type
returns the cached result; otherwise the result is recomputed from the
user's stored transactions (empty history yields the all-empty
literal) and cached. -/
def getLatestUploadResult (P : Processors) (c : Cache) (db : DB) (u : Int) :
    Except Err UploadResult × Cache :=
  let key := ckLatestUploadResult u
  match asUploadRes (c key) with
  | some r => (.ok r, c)
  | none =>
    let txs := fetchUserProcessedTransactions db u
    if txs.isEmpty then
      (.ok emptyUploadResult, cacheSet c key (.uploadRes emptyUploadResult))
    else
      let r := computeUserReport P txs
      (.ok r, cacheSet c key (.uploadRes r))

/-- Embedding of `GetDividendTaxSummary`. -/
def getDividendTaxSummary (P : Processors) (c : Cache) (db : DB) (u : Int) :
    Except Err DividendTaxResult × Cache :=
  let key := ckDividendSummary u
  match asDivSummary (c key) with
  | some s => (.ok s, c)
  | none =>
    let txs := fetchUserProcessedTransactions db u
    if txs.isEmpty then
      (.ok emptyDividendTaxResult,
       cacheSet c key (.divSummary emptyDividendTaxResult))
    else
      let s := P.calculateTaxSummary txs
      (.ok s, cacheSet c key (.divSummary s))

/-- Embedding of `GetStockSaleDetails`. -/
def getStockSaleDetails (P : Processors) (c : Cache) (db : DB) (u : Int) :
    Except Err (GoSlice SaleDetail) × Cache :=
  let key := ckStockSales u
  match asStockSales (c key) with
  | some l => (.ok l, c)
  | none =>
    let txs := fetchUserProcessedTransactions db u
    if txs.isEmpty then
      (.ok GoSlice.empty, cacheSet c key (.stockSales GoSlice.empty))
    else
      let sd := (P.stockProcessFn txs).1
      (.ok sd, cacheSet c key (.stockSales sd))

/-- Embedding of `GetDividendTransactions` (cache-backed variant):
starts from the non-nil empty slice and appends every transaction
whose lower-cased order type is `dividend` or `dividendtax`. -/
def getDividendTransactions (c : Cache) (db : DB) (u : Int) :
    Except Err (GoSlice ProcessedTransaction) × Cache :=
  let key := ckDividendTxns u
  match asDivTxns (c key) with
  | some l => (.ok l, c)
  | none =>
    let txs := fetchUserProcessedTransactions db u
    let dividends :=
      if txs.isEmpty then GoSlice.empty else appendDividends GoSlice.empty txs
    (.ok dividends, cacheSet c key (.divTxns dividends))

/-- Embedding of `GetStockHoldings`. -/
def getStockHoldings (P : Processors) (c : Cache) (db : DB) (u : Int) :
    Except Err (GoSlice PurchaseLot) × Cache :=
  let key := ckStockHoldings u
  match asStockHold (c key) with
  | some l => (.ok l, c)
  | none =>
    let txs := fetchUserProcessedTransactions db u
    if txs.isEmpty then
      (.ok GoSlice.empty, cacheSet c key (.stockHold GoSlice.empty))
    else
      let h := (P.stockProcessFn txs).2
      (.ok h, cacheSet c key (.stockHold h))

/-- Embedding of `GetOptionHoldings`. -/
def getOptionHoldings (P : Processors) (c : Cache) (db : DB) (u : Int) :
    Except Err (GoSlice OptionHolding) × Cache :=
  let key := ckOptionHoldings u
  match asOptionHold (c key) with
  | some l => (.ok l, c)
  | none =>
    let txs := fetchUserProcessedTransactions db u
    if txs.isEmpty then
      (.ok GoSlice.empty, cacheSet c key (.optionHold GoSlice.empty))
    else
      let h := (P.optionProcessFn txs).2
      (.ok h, cacheSet c key (.optionHold h))

/-- Embedding of `GetOptionSaleDetails`. -/
def getOptionSaleDetails (P : Processors) (c : Cache) (db : DB) (u : Int) :
    Except Err (GoSlice OptionSaleDetail) × Cache :=
  let key := ckOptionSales u
  match asOptionSales (c key) with
  | some l => (.ok l, c)
  | none =>
    let txs := fetchUserProcessedTransactions db u
    if txs.isEmpty then
      (.ok GoSlice.empty, cacheSet c key (.optionSales GoSlice.empty))
    else
      let sd := (P.optionProcessFn txs).1
      (.ok sd, cacheSet c key (.optionSales sd))

/-! ### ProcessUpload and the transactional persist
(`upload_service.go` lines 103-216) -/

/-- Failure oracle for the database primitives used by the persist
stage: whether `Begin` and `Prepare` succeed, whether the i-th `Exec`
succeeds, and whether `Commit` succeeds. -/
structure PersistOracle where
  beginOk : Bool
  prepareOk : Bool
  insertOk : Nat → Bool
  commitOk : Bool

/-- The insert loop of `ProcessUpload`: executes the prepared insert
for each processed transaction in order, accumulating the pending rows
of the open database transaction; the first failing `Exec` aborts. -/
def insertLoop (insOk : Nat → Bool) (u : Int) (i : Nat)
    (pending : List DBRow) :
    List ProcessedTransaction → Except Err (List DBRow)
  | [] => .ok pending
  | t :: ts =>
    if insOk i then insertLoop insOk u (i + 1) (pending ++ [⟨u, t⟩]) ts
    else .error .insertFailed

/-- The transactional persist of `ProcessUpload`: `Begin`, `Prepare`,
one `Exec` per row, `Commit`; any failure rolls the open transaction
back (the pending rows are discarded and the store is unchanged), and
a successful commit appends every row. -/
def persistBatch (po : PersistOracle) (u : Int) (db : DB)
    (txs : List ProcessedTransaction) : Except Err DB :=
  if !po.beginOk then .error .beginFailed
  else if !po.prepareOk then .error .prepareFailed
  else
    match insertLoop po.insertOk u 0 [] txs with
    | .error e => .error e
    | .ok pending =>
      if po.commitOk then .ok (db ++ pending) else .error .commitFailed

/-- The per-batch result assembled by `ProcessUpload` from only the
newly uploaded transactions (`upload_service.go` lines 190-212). -/
def processBatchResult (P : Processors) (pts : List ProcessedTransaction) :
    UploadResult :=
  { stockSaleDetails := (P.stockProcessFn pts).1,
    stockHoldings := (P.stockProcessFn pts).2,
    optionSaleDetails := (P.optionProcessFn pts).1,
    optionHoldings := (P.optionProcessFn pts).2,
    cashMovements := P.cashProcessFn pts,
    dividendTransactionsList := appendDividends GoSlice.nilSlice pts }

/-- Embedding of `ProcessUpload` (cache-backed variant). Inputs: the
parser result for the uploaded file, the transaction processor
(normalizer), the persistence failure oracle, the user, and the
current store and cache. Output: the result or error, and the store
and cache after the call. Mirrors the source paths: parse error;
zero raw transactions; normalization error; zero processed
transactions; transactional persist; cache invalidation; per-batch
processing of only the newly uploaded transactions. -/
def processUpload (P : Processors)
    (parseRes : Except String (List RawTransaction))
    (normalize : List RawTransaction → Except String (List ProcessedTransaction))
    (po : PersistOracle) (u : Int) (db : DB) (c : Cache) :
    Except Err UploadResult × DB × Cache :=
  match parseRes with
  | .error _ => (.error .parsingFailed, db, c)
  | .ok raws =>
    if raws.isEmpty then (.ok emptyUploadResult, db, c)
    else
      match normalize raws with
      | .error _ => (.error .processingFailed, db, c)
      | .ok pts =>
        if pts.isEmpty then (.ok emptyUploadResult, db, c)
        else
          match persistBatch po u db pts with
          | .error e => (.error e, db, c)
          | .ok db2 =>
            let c2 := invalidateUserCache c u
            (.ok (processBatchResult P pts), db2, c2)

/-! ### Values computed by the cache-miss paths, and cache
consistency -/

/-- The value `GetLatestUploadResult` computes on a cache miss. -/
def latestComputed (P : Processors) (db : DB) (u : Int) : UploadResult :=
  let txs := fetchUserProcessedTransactions db u
  if txs.isEmpty then emptyUploadResult else computeUserReport P txs

/-- The value `GetStockSaleDetails` computes on a cache miss. -/
def stockSalesComputed (P : Processors) (db : DB) (u : Int) :
    GoSlice SaleDetail :=
  let txs := fetchUserProcessedTransactions db u
  if txs.isEmpty then GoSlice.empty else (P.stockProcessFn txs).1

/-- The value `GetStockHoldings` computes on a cache miss. -/
def stockHoldingsComputed (P : Processors) (db : DB) (u : Int) :
    GoSlice PurchaseLot :=
  let txs := fetchUserProcessedTransactions db u
  if txs.isEmpty then GoSlice.empty else (P.stockProcessFn txs).2

/-- The value `GetOptionSaleDetails` computes on a cache miss. -/
def optionSalesComputed (P : Processors) (db : DB) (u : Int) :
    GoSlice OptionSaleDetail :=
  let txs := fetchUserProcessedTransactions db u
  if txs.isEmpty then GoSlice.empty else (P.optionProcessFn txs).1

/-- The value `GetOptionHoldings` computes on a cache miss. -/
def optionHoldingsComputed (P : Processors) (db : DB) (u : Int) :
    GoSlice OptionHolding :=
  let txs := fetchUserProcessedTransactions db u
  if txs.isEmpty then GoSlice.empty else (P.optionProcessFn txs).2

/-- The value `GetDividendTaxSummary` computes on a cache miss. -/
def divSummaryComputed (P : Processors) (db : DB) (u : Int) :
    DividendTaxResult :=
  let txs := fetchUserProcessedTransactions db u
  if txs.isEmpty then emptyDividendTaxResult else P.calculateTaxSummary txs

/-- The value `GetDividendTransactions` computes on a cache miss. -/
def divTxnsComputed (db : DB) (u : Int) : GoSlice ProcessedTransaction :=
  let txs := fetchUserProcessedTransactions db u
  if txs.isEmpty then GoSlice.empty else appendDividends GoSlice.empty txs

/-- Cache consistency: every entry present under one of the user's
seven keys (and carrying the type the getter asserts) equals the value
the corresponding cache-miss path computes from the current store.
This is the discipline the service maintains: entries are written only
by the miss paths and deleted by `InvalidateUserCache` whenever the
user's stored transactions change. -/
def cacheConsistent (P : Processors) (db : DB) (u : Int) (c : Cache) : Prop :=
  (∀ r, asUploadRes (c (ckLatestUploadResult u)) = some r →
    r = latestComputed P db u) ∧
  (∀ l, asStockSales (c (ckStockSales u)) = some l →
    l = stockSalesComputed P db u) ∧
  (∀ l, asStockHold (c (ckStockHoldings u)) = some l →
    l = stockHoldingsComputed P db u) ∧
  (∀ l, asOptionSales (c (ckOptionSales u)) = some l →
    l = optionSalesComputed P db u) ∧
  (∀ l, asOptionHold (c (ckOptionHoldings u)) = some l →
    l = optionHoldingsComputed P db u) ∧
  (∀ s, asDivSummary (c (ckDividendSummary u)) = some s →
    s = divSummaryComputed P db u) ∧
  (∀ l, asDivTxns (c (ckDividendTxns u)) = some l →
    l = divTxnsComputed db u)

/-! ### Singleton (in-memory) variant of the upload service
(second document in `upload_service.go`, lines 457-621) -/

/-- The filter condition of the singleton variant's
`GetDividendTransactions`: `tx.OrderType != "" &&
strings.ToLower(tx.OrderType) == "dividend"`. -/
def singletonDividendPred (t : ProcessedTransaction) : Bool :=
  decide (t.orderType ≠ "") && decide (goToLower t.orderType = "dividend")

/-- Embedding of the singleton variant's `GetDividendTransactions`:
requires a previous upload, then keeps exactly the stored transactions
whose order type is non-empty and lower-cases to `dividend` (note: not
`dividendtax`). -/
def singletonGetDividendTransactions
    (latestProcessed : Option (List ProcessedTransaction)) :
    Except Err (GoSlice ProcessedTransaction) :=
  match latestProcessed with
  | none => .error .noUploadYet
  | some txs =>
    .ok (txs.foldl
      (fun s t => if singletonDividendPred t then s.push t else s)
      GoSlice.empty)

/-! ### Concrete sample data used by the closed theorems -/

/-- Buy B1: quantity 10 at total cost 100 EUR (unit price 10). -/
def sampleBuy1 : ProcessedTransaction :=
  { id := 1, date := 1, productName := "ACME", isin := "II1",
    quantity := 10, originalQuantity := 10, price := 10,
    orderType := "buy", transactionType := "", description := "",
    amount := -100, currency := "EUR", commission := 0, orderID := "o1",
    exchangeRate := 1, amountEUR := -100, countryCode := "" }

/-- Buy B2: quantity 10 at total cost 200 EUR (unit price 20). -/
def sampleBuy2 : ProcessedTransaction :=
  { sampleBuy1 with
    id := 2
    date := 2
    price := 20
    amount := -200
    amountEUR := -200
    orderID := "o2" }

/-- Sale of quantity 15 at unit price 30 EUR. -/
def sampleSell15 : ProcessedTransaction :=
  { sampleBuy1 with
    id := 3
    date := 3
    quantity := -15
    originalQuantity := -15
    price := 30
    orderType := "sell"
    amount := 450
    amountEUR := 450
    orderID := "o3" }

/-- Sale of quantity 5 of an instrument never bought. -/
def sampleOrphanSell : ProcessedTransaction :=
  { sampleBuy1 with
    id := 9
    date := 7
    quantity := -5
    originalQuantity := -5
    price := 12
    orderType := "sell"
    amount := 60
    amountEUR := 60
    orderID := "o9" }

/-- A dividend-tax transaction (order type `dividendtax`). -/
def sampleDividendTaxTx : ProcessedTransaction :=
  { sampleBuy1 with
    id := 4
    date := 4
    quantity := 0
    originalQuantity := 0
    price := 0
    orderType := "dividendtax"
    amount := -3
    amountEUR := -3
    orderID := "o4" }

lemma goToLower_buy : goToLower "buy" = "buy" := by decide

lemma goToLower_sell : goToLower "sell" = "sell" := by decide

lemma goToLower_dividendtax : goToLower "dividendtax" = "dividendtax" := by decide

/-- Opening of a short call: sell-to-open one contract at strike 50,
expiry day 100. -/
def sampleShortCallOpen : OptionEvent :=
  ⟨.openEvt, 1, "OPT1", .call, 50, 100, -1⟩

/-- Assignment event for the same contract on day 5. -/
def sampleAssignment : OptionEvent :=
  ⟨.assignEvt, 5, "OPT1", .call, 50, 100, 1⟩

/-- A natively-recorded stock transaction on the assignment date. -/
def sampleNativeStockTx : ProcessedTransaction :=
  { sampleBuy1 with
    id := 12
    date := 5
    orderID := "o12" }

/-- Trivial processor instances used to instantiate the service
theorems at concrete inputs. -/
def sampleProcessors : Processors :=
  { stockProcessFn := fun _ => (GoSlice.empty, GoSlice.empty),
    optionProcessFn := fun _ => (GoSlice.empty, GoSlice.empty),
    cashProcessFn := fun _ => GoSlice.empty,
    calculateTaxSummary := fun _ => emptyDividendTaxResult }

/-! ### General lemmas about the embedded operations -/

/-- Element-level description of the dividend accumulation loop: it
appends exactly the filtered subsequence. -/
lemma foldl_push_toList {α : Type} (p : α → Bool) :
    ∀ (txs : List α) (init : GoSlice α),
      (txs.foldl (fun s t => if p t then s.push t else s) init).toList =
        init.toList ++ txs.filter p
  | [], init => by simp
  | t :: ts, init => by
    simp only [List.foldl_cons]
    by_cases h : p t
    · rw [if_pos h, foldl_push_toList p ts (init.push t),
        List.filter_cons_of_pos h]
      simp [GoSlice.push]
    · rw [if_neg h, foldl_push_toList p ts init,
        List.filter_cons_of_neg h]

/-- A non-nil starting slice stays non-nil through the accumulation
loop, and collects exactly the filtered subsequence. -/
lemma foldl_push_eq {α : Type} (p : α → Bool) :
    ∀ (txs : List α) (l : List α),
      (txs.foldl (fun s t => if p t then s.push t else s)
          (⟨false, l⟩ : GoSlice α)) =
        (⟨false, l ++ txs.filter p⟩ : GoSlice α)
  | [], l => by simp
  | t :: ts, l => by
    simp only [List.foldl_cons]
    by_cases h : p t
    · rw [if_pos h]
      show List.foldl _ (⟨false, l ++ [t]⟩ : GoSlice α) ts = _
      rw [foldl_push_eq p ts (l ++ [t]), List.filter_cons_of_pos h]
      simp
    · rw [if_neg h, foldl_push_eq p ts l, List.filter_cons_of_neg h]

/-- The insert loop returns exactly the rows of the whole batch,
tagged with the user, when it returns at all. -/
lemma insertLoop_ok_eq (insOk : Nat → Bool) (u : Int) :
    ∀ (txs : List ProcessedTransaction) (i : Nat) (pending out : List DBRow),
      insertLoop insOk u i pending txs = .ok out →
      out = pending ++ txs.map (fun t => DBRow.mk u t)
  | [], i, pending, out => by
    intro h
    simp only [insertLoop] at h
    cases h
    simp
  | t :: ts, i, pending, out => by
    intro h
    simp only [insertLoop] at h
    by_cases hk : insOk i
    · rw [if_pos hk] at h
      have := insertLoop_ok_eq insOk u ts (i + 1) (pending ++ [⟨u, t⟩]) out h
      simp [this]
    · rw [if_neg hk] at h
      cases h

/-- Atomicity of the persist stage: a successful `persistBatch`
appends exactly the whole batch to the store. -/
lemma persistBatch_ok_eq (po : PersistOracle) (u : Int) (db : DB)
    (txs : List ProcessedTransaction) (db2 : DB)
    (h : persistBatch po u db txs = .ok db2) :
    db2 = db ++ txs.map (fun t => DBRow.mk u t) := by
  unfold persistBatch at h
  by_cases hb : po.beginOk
  · rw [if_neg (by simp [hb])] at h
    by_cases hp : po.prepareOk
    · rw [if_neg (by simp [hp])] at h
      cases hloop : insertLoop po.insertOk u 0 [] txs with
      | error e => rw [hloop] at h; cases h
      | ok pending =>
        rw [hloop] at h
        have h2 : (if po.commitOk then Except.ok (db ++ pending)
            else Except.error Err.commitFailed) = Except.ok db2 := h
        by_cases hcm : po.commitOk
        · rw [if_pos hcm] at h2
          cases h2
          have := insertLoop_ok_eq po.insertOk u txs 0 [] pending hloop
          simp [this]
        · rw [if_neg hcm] at h2; cases h2
    · rw [if_pos (by simp [hp])] at h; cases h
  · rw [if_pos (by simp [hb])] at h; cases h

/-- Total open quantity is nonnegative when every lot is. -/
lemma sumQty_nonneg (lots : List PurchaseLot)
    (h : ∀ l ∈ lots, 0 ≤ l.quantityRemaining) : 0 ≤ sumQty lots := by
  unfold sumQty
  apply List.sum_nonneg
  intro x hx
  rcases List.mem_map.mp hx with ⟨l, hl, rfl⟩
  exact h l hl

/-- Unfolding of `sumQty` over the head lot. -/
lemma sumQty_cons (l : PurchaseLot) (ls : List PurchaseLot) :
    sumQty (l :: ls) = l.quantityRemaining + sumQty ls := by
  simp [sumQty]

/-- Under a consistent (or absent) cache entry, `GetLatestUploadResult`
returns exactly the recomputed value. -/
lemma getLatestUploadResult_eq_computed (P : Processors) (db : DB) (u : Int)
    (c : Cache)
    (h : ∀ r, asUploadRes (c (ckLatestUploadResult u)) = some r →
      r = latestComputed P db u) :
    (getLatestUploadResult P c db u).1 = .ok (latestComputed P db u) := by
  unfold getLatestUploadResult latestComputed
  cases hck : asUploadRes (c (ckLatestUploadResult u)) with
  | some r =>
    simp only [hck]
    simp [h r hck, latestComputed]
  | none =>
    simp only [hck]
    by_cases he : (fetchUserProcessedTransactions db u).isEmpty
    · rw [if_pos he, if_pos he]
    · rw [if_neg he, if_neg he]

/-- Under a consistent (or absent) cache entry, `GetStockSaleDetails`
returns exactly the recomputed value. -/
lemma getStockSaleDetails_eq_computed (P : Processors) (db : DB) (u : Int)
    (c : Cache)
    (h : ∀ l, asStockSales (c (ckStockSales u)) = some l →
      l = stockSalesComputed P db u) :
    (getStockSaleDetails P c db u).1 = .ok (stockSalesComputed P db u) := by
  unfold getStockSaleDetails stockSalesComputed
  cases hck : asStockSales (c (ckStockSales u)) with
  | some l =>
    simp only [hck]
    simp [h l hck, stockSalesComputed]
  | none =>
    simp only [hck]
    by_cases he : (fetchUserProcessedTransactions db u).isEmpty
    · rw [if_pos he, if_pos he]
    · rw [if_neg he, if_neg he]

/-- Under a consistent (or absent) cache entry, `GetStockHoldings`
returns exactly the recomputed value. -/
lemma getStockHoldings_eq_computed (P : Processors) (db : DB) (u : Int)
    (c : Cache)
    (h : ∀ l, asStockHold (c (ckStockHoldings u)) = some l →
      l = stockHoldingsComputed P db u) :
    (getStockHoldings P c db u).1 = .ok (stockHoldingsComputed P db u) := by
  unfold getStockHoldings stockHoldingsComputed
  cases hck : asStockHold (c (ckStockHoldings u)) with
  | some l =>
    simp only [hck]
    simp [h l hck, stockHoldingsComputed]
  | none =>
    simp only [hck]
    by_cases he : (fetchUserProcessedTransactions db u).isEmpty
    · rw [if_pos he, if_pos he]
    · rw [if_neg he, if_neg he]

/-- Under a consistent (or absent) cache entry, `GetOptionSaleDetails`
returns exactly the recomputed value. -/
lemma getOptionSaleDetails_eq_computed (P : Processors) (db : DB) (u : Int)
    (c : Cache)
    (h : ∀ l, asOptionSales (c (ckOptionSales u)) = some l →
      l = optionSalesComputed P db u) :
    (getOptionSaleDetails P c db u).1 = .ok (optionSalesComputed P db u) := by
  unfold getOptionSaleDetails optionSalesComputed
  cases hck : asOptionSales (c (ckOptionSales u)) with
  | some l =>
    simp only [hck]
    simp [h l hck, optionSalesComputed]
  | none =>
    simp only [hck]
    by_cases he : (fetchUserProcessedTransactions db u).isEmpty
    · rw [if_pos he, if_pos he]
    · rw [if_neg he, if_neg he]

/-- Under a consistent (or absent) cache entry, `GetOptionHoldings`
returns exactly the recomputed value. -/
lemma getOptionHoldings_eq_computed (P : Processors) (db : DB) (u : Int)
    (c : Cache)
    (h : ∀ l, asOptionHold (c (ckOptionHoldings u)) = some l →
      l = optionHoldingsComputed P db u) :
    (getOptionHoldings P c db u).1 = .ok (optionHoldingsComputed P db u) := by
  unfold getOptionHoldings optionHoldingsComputed
  cases hck : asOptionHold (c (ckOptionHoldings u)) with
  | some l =>
    simp only [hck]
    simp [h l hck, optionHoldingsComputed]
  | none =>
    simp only [hck]
    by_cases he : (fetchUserProcessedTransactions db u).isEmpty
    · rw [if_pos he, if_pos he]
    · rw [if_neg he, if_neg he]

/-- Under a consistent (or absent) cache entry, `GetDividendTaxSummary`
returns exactly the recomputed value. -/
lemma getDividendTaxSummary_eq_computed (P : Processors) (db : DB) (u : Int)
    (c : Cache)
    (h : ∀ x, asDivSummary (c (ckDividendSummary u)) = some x →
      x = divSummaryComputed P db u) :
    (getDividendTaxSummary P c db u).1 = .ok (divSummaryComputed P db u) := by
  unfold getDividendTaxSummary divSummaryComputed
  cases hck : asDivSummary (c (ckDividendSummary u)) with
  | some x =>
    simp only [hck]
    simp [h x hck, divSummaryComputed]
  | none =>
    simp only [hck]
    by_cases he : (fetchUserProcessedTransactions db u).isEmpty
    · rw [if_pos he, if_pos he]
    · rw [if_neg he, if_neg he]

/-- Under a consistent (or absent) cache entry,
`GetDividendTransactions` returns exactly the recomputed value. -/
lemma getDividendTransactions_eq_computed (db : DB) (u : Int) (c : Cache)
    (h : ∀ l, asDivTxns (c (ckDividendTxns u)) = some l →
      l = divTxnsComputed db u) :
    (getDividendTransactions c db u).1 = .ok (divTxnsComputed db u) := by
  unfold getDividendTransactions divTxnsComputed
  cases hck : asDivTxns (c (ckDividendTxns u)) with
  | some l =>
    simp only [hck]
    simp [h l hck, divTxnsComputed]
  | none =>
    simp only [hck]

/-- The no-op cache vacuously satisfies every consistency clause. -/
lemma emptyCache_consistent (P : Processors) (db : DB) (u : Int) :
    cacheConsistent P db u emptyCache := by
  refine ⟨?_, ?_, ?_, ?_, ?_, ?_, ?_⟩ <;>
    · intro x hx
      simp [emptyCache, asUploadRes, asStockSales, asStockHold,
        asOptionSales, asOptionHold, asDivSummary, asDivTxns] at hx

/-- When the open lots cannot cover the sale quantity, FIFO
consumption empties the queue, every lot-backed detail is unflagged,
and the trailing detail is the flagged zero-cost one, dated at the
sale date, covering exactly the shortfall. -/
lemma consumeFIFO_oversold (ident : String) (saleDate : Nat) (totQ tp : ℚ) :
    ∀ (lots : List PurchaseLot) (rq : ℚ), 0 < rq →
      (∀ l ∈ lots, 0 ≤ l.quantityRemaining) → sumQty lots < rq →
      (∃ ds, (consumeFIFO ident saleDate totQ tp rq lots).1 =
          ds ++ [⟨ident, saleDate, saleDate, rq - sumQty lots,
                  tp * (rq - sumQty lots) / totQ, 0, true⟩] ∧
        ∀ d ∈ ds, d.oversold = false) ∧
      (consumeFIFO ident saleDate totQ tp rq lots).2 = []
  | [], rq, h0, _, _ => by
    constructor
    · refine ⟨[], ?_, by simp⟩
      simp only [consumeFIFO, if_neg (not_le.mpr h0)]
      simp [sumQty]
    · simp only [consumeFIFO, if_neg (not_le.mpr h0)]
  | lot :: rest, rq, h0, hpos, hs => by
    have hrest0 : 0 ≤ sumQty rest :=
      sumQty_nonneg rest (fun l hl => hpos l (List.mem_cons_of_mem _ hl))
    rw [sumQty_cons] at hs
    have hlq : lot.quantityRemaining < rq := by linarith
    have hrec := consumeFIFO_oversold ident saleDate totQ tp rest
      (rq - lot.quantityRemaining) (by linarith)
      (fun l hl => hpos l (List.mem_cons_of_mem _ hl)) (by linarith)
    obtain ⟨⟨ds, hds, hall⟩, h2⟩ := hrec
    constructor
    · refine ⟨⟨ident, saleDate, lot.acquisitionDate, lot.quantityRemaining,
        tp * lot.quantityRemaining / totQ,
        lot.quantityRemaining * lot.unitCostEUR, false⟩ :: ds, ?_, ?_⟩
      · simp only [consumeFIFO, if_neg (not_le.mpr h0),
          if_pos (le_of_lt hlq)]
        rw [sumQty_cons]
        simp only [List.cons_append]
        have harith : rq - lot.quantityRemaining - sumQty rest =
            rq - (lot.quantityRemaining + sumQty rest) := by ring
        rw [hds, harith]
      · intro d hd
        rcases List.mem_cons.mp hd with h | h
        · rw [h]
        · exact hall d h
    · simp only [consumeFIFO, if_neg (not_le.mpr h0), if_pos (le_of_lt hlq)]
      exact h2

/-- Collections of the empty result are all empty and non-nil. -/
def uploadResultEmptyNonNil (r : UploadResult) : Prop :=
  r.stockSaleDetails.isNil = false ∧ r.stockSaleDetails.toList = [] ∧
  r.stockHoldings.isNil = false ∧ r.stockHoldings.toList = [] ∧
  r.optionSaleDetails.isNil = false ∧ r.optionSaleDetails.toList = [] ∧
  r.optionHoldings.isNil = false ∧ r.optionHoldings.toList = [] ∧
  r.cashMovements.isNil = false ∧ r.cashMovements.toList = [] ∧
  r.dividendTransactionsList.isNil = false ∧
  r.dividendTransactionsList.toList = []

/-! ### Claim theorems -/

/-- C1: the Stock Lot Matcher consumes open lots strictly
first-in-first-out — buys B1 (qty 10, cost 100) and B2 (qty 10,
cost 200) followed by a sale of qty 15 consume all of B1 and 5 units
of B2, each consumed slice yields its own SaleDetail with cost basis
proportional to the quantity taken from that lot (10 × B1 unit cost =
100 and 5 × B2 unit cost = 100, total 200), and the remaining open lot
has quantity 5 from B2 at unit cost 20. -/
theorem fifo_sale_consumes_oldest_lots_first :
    stockProcess [sampleBuy1, sampleBuy2, sampleSell15] =
      ([⟨"II1", 3, 1, 10, 450 * 10 / 15, 10 * unitCostOfBuy sampleBuy1, false⟩,
        ⟨"II1", 3, 2, 5, 450 * 5 / 15, 5 * unitCostOfBuy sampleBuy2, false⟩],
       [⟨"II1", 2, 5, unitCostOfBuy sampleBuy2, "EUR"⟩])
    ∧ (10 : ℚ) * unitCostOfBuy sampleBuy1 = 100
    ∧ (5 : ℚ) * unitCostOfBuy sampleBuy2 = 100
    ∧ ((stockProcess [sampleBuy1, sampleBuy2, sampleSell15]).1.map
        (·.costBasisEUR)).sum = 200 := by
  refine ⟨?_, ?_, ?_, ?_⟩ <;>
    norm_num +decide [stockProcess, stockStep, consumeFIFO, identityOf,
      unitCostOfBuy, lookupLots, updateLots, goToLower_buy, goToLower_sell,
      sampleBuy1, sampleBuy2, sampleSell15]

/-- C2: assigning an open short-call lot of quantity 1 at strike 50
produces exactly one OptionSaleDetail in state `assigned` and exactly
one synthetic equity sell transaction of quantity 100 at price 50,
dated at the assignment date, and the deterministic merge places the
synthetic transaction after a natively-recorded stock transaction of
the same date. -/
theorem option_assignment_emits_one_detail_and_synthetic_sell :
    (optionProcessEvents [sampleShortCallOpen, sampleAssignment]).details =
        [⟨"OPT1", .call, 50, 100, 1, 5, .assigned⟩]
    ∧ (optionProcessEvents [sampleShortCallOpen, sampleAssignment]).holdings = []
    ∧ (optionProcessEvents [sampleShortCallOpen, sampleAssignment]).synthetic =
        [syntheticEquityTx false "OPT1" 100 50 5]
    ∧ (syntheticEquityTx false "OPT1" 100 50 5).orderType = "sell"
    ∧ (syntheticEquityTx false "OPT1" 100 50 5).quantity = 100
    ∧ (syntheticEquityTx false "OPT1" 100 50 5).price = 50
    ∧ (syntheticEquityTx false "OPT1" 100 50 5).date = 5
    ∧ mergeSynthetic [sampleNativeStockTx]
        (optionProcessEvents [sampleShortCallOpen, sampleAssignment]).synthetic =
        [sampleNativeStockTx, syntheticEquityTx false "OPT1" 100 50 5] := by
  refine ⟨?_, ?_, ?_, ?_, ?_, ?_, ?_, ?_⟩ <;>
    norm_num +decide [optionProcessEvents, optionStep, findAndRemove,
      optionKeyMatch, assignmentIsBuy, syntheticEquityTx, mergeSynthetic,
      sampleShortCallOpen, sampleAssignment, sampleNativeStockTx, sampleBuy1]

/-- C3: a sale with no prior buy (or insufficient open quantity) never
fails: the queue is emptied, every lot-backed SaleDetail is unflagged,
and the shortfall yields one flagged SaleDetail with cost basis 0
whose acquisition date is the sale date; concretely, a lone sale of
quantity 5 yields exactly one flagged zero-cost SaleDetail. -/
theorem oversold_sale_yields_flagged_zero_cost_detail :
    (∀ (ident : String) (saleDate : Nat) (totQ tp rq : ℚ)
        (lots : List PurchaseLot), 0 < rq →
      (∀ l ∈ lots, 0 ≤ l.quantityRemaining) → sumQty lots < rq →
      (∃ ds, (consumeFIFO ident saleDate totQ tp rq lots).1 =
          ds ++ [⟨ident, saleDate, saleDate, rq - sumQty lots,
                  tp * (rq - sumQty lots) / totQ, 0, true⟩] ∧
        ∀ d ∈ ds, d.oversold = false) ∧
      (consumeFIFO ident saleDate totQ tp rq lots).2 = [])
    ∧ stockProcess [sampleOrphanSell] =
        ([⟨"II1", 7, 7, 5, 60, 0, true⟩], []) := by
  constructor
  · intro ident saleDate totQ tp rq lots h0 hpos hs
    exact consumeFIFO_oversold ident saleDate totQ tp lots rq h0 hpos hs
  · norm_num +decide [stockProcess, stockStep, consumeFIFO, identityOf,
      unitCostOfBuy, lookupLots, updateLots, goToLower_buy, goToLower_sell,
      sampleBuy1, sampleOrphanSell]

/-- Witness for C3: the oversold statement instantiated at a sale of
quantity 5 against an empty lot queue. -/
theorem oversold_sale_witness :
    (∃ ds, (consumeFIFO "II1" 7 5 60 (5 : ℚ) []).1 =
        ds ++ [⟨"II1", 7, 7, 5 - sumQty [], 60 * (5 - sumQty []) / 5, 0, true⟩] ∧
      ∀ d ∈ ds, d.oversold = false) ∧
    (consumeFIFO "II1" 7 5 60 (5 : ℚ) []).2 = [] :=
  oversold_sale_yields_flagged_zero_cost_detail.1 "II1" 7 5 60 5 []
    (by norm_num) (by intro l hl; cases hl) (by norm_num [sumQty])

/-- C9: the EUR amount is the exact product of amount and exchange
rate — 100 × 0.92 = 92 exactly — and its recomputation from the same
pair is reproducible. -/
theorem amountEUR_exact_product :
    (∀ a r : ℚ, computeAmountEUR a r = a * r)
    ∧ computeAmountEUR 100 (92 / 100) = 92
    ∧ (∀ t, (normalizeAmountEUR t).amountEUR =
        computeAmountEUR t.amount t.exchangeRate)
    ∧ (∀ a r : ℚ, computeAmountEUR a r = computeAmountEUR a r) :=
  ⟨fun _ _ => rfl, by norm_num [computeAmountEUR], fun _ => rfl,
   fun _ _ => rfl⟩

/-- C4: processing is deterministic and idempotent — re-running
`ProcessUpload` or the report computation on identical input yields
identical output, calling `GetLatestUploadResult` again after a first
call returns the same result, and the stored transactions are re-read
in the fixed order (date ascending, insertion id ascending) and
consist of exactly the user's rows. -/
theorem processing_deterministic_and_fetch_ordered :
    ∀ (P : Processors) (c : Cache) (db : DB) (u : Int)
      (pr : Except String (List RawTransaction))
      (nm : List RawTransaction → Except String (List ProcessedTransaction))
      (po : PersistOracle) (txs : List ProcessedTransaction),
      processUpload P pr nm po u db c = processUpload P pr nm po u db c
      ∧ computeUserReport P txs = computeUserReport P txs
      ∧ (getLatestUploadResult P (getLatestUploadResult P c db u).2 db u).1 =
          (getLatestUploadResult P c db u).1
      ∧ List.Sorted txFetchLE (fetchUserProcessedTransactions db u)
      ∧ (fetchUserProcessedTransactions db u).Perm
          ((db.filter (fun r => decide (r.userID = u))).map (·.tx)) := by
  intro P c db u pr nm po txs
  refine ⟨rfl, rfl, ?_, List.sorted_insertionSort txFetchLE _,
    List.perm_insertionSort txFetchLE _⟩
  cases hck : asUploadRes (c (ckLatestUploadResult u)) with
  | some r => simp only [getLatestUploadResult, hck]
  | none =>
    simp only [getLatestUploadResult, hck]
    by_cases he : (fetchUserProcessedTransactions db u).isEmpty
    · rw [if_pos he]
      simp [getLatestUploadResult, cacheSet, asUploadRes, he]
    · rw [if_neg he]
      simp [getLatestUploadResult, cacheSet, asUploadRes, he]

/-- C5: empty input yields empty, non-nil collections with no error —
`ProcessUpload` on a file parsing to zero raw transactions, and
`GetLatestUploadResult` for a user with zero stored transactions
(under a consistent cache entry, or none), both return the all-empty
result whose six collections are empty and non-nil. -/
theorem empty_input_yields_empty_non_nil_result
    (P : Processors) (nm : List RawTransaction →
      Except String (List ProcessedTransaction))
    (po : PersistOracle) (u : Int) (db : DB) (c : Cache)
    (hc : ∀ r, asUploadRes (c (ckLatestUploadResult u)) = some r →
      r = latestComputed P db u)
    (hdb : fetchUserProcessedTransactions db u = []) :
    processUpload P (.ok []) nm po u db c = (.ok emptyUploadResult, db, c)
    ∧ (getLatestUploadResult P c db u).1 = .ok emptyUploadResult
    ∧ uploadResultEmptyNonNil emptyUploadResult := by
  refine ⟨rfl, ?_,
    ⟨rfl, rfl, rfl, rfl, rfl, rfl, rfl, rfl, rfl, rfl, rfl, rfl⟩⟩
  rw [getLatestUploadResult_eq_computed P db u c hc]
  simp [latestComputed, hdb]

/-- Witness for C5: the empty store, no-op cache and trivial
processors. -/
theorem empty_input_witness :
    processUpload sampleProcessors (.ok []) (fun _ => .ok [])
        ⟨true, true, fun _ => true, true⟩ 1 [] emptyCache =
      (.ok emptyUploadResult, [], emptyCache)
    ∧ (getLatestUploadResult sampleProcessors emptyCache [] 1).1 =
        .ok emptyUploadResult
    ∧ uploadResultEmptyNonNil emptyUploadResult :=
  empty_input_yields_empty_non_nil_result sampleProcessors (fun _ => .ok [])
    ⟨true, true, fun _ => true, true⟩ 1 [] emptyCache
    (fun r h => by simp [emptyCache, asUploadRes] at h) rfl

/-- C6: a normalization failure aborts the whole batch —
`ProcessUpload` returns the error, persists nothing (the store is
unchanged) and produces no partial output (the cache is unchanged). -/
theorem malformed_batch_aborts_whole_upload
    (P : Processors) (nm : List RawTransaction →
      Except String (List ProcessedTransaction))
    (po : PersistOracle) (u : Int) (db : DB) (c : Cache)
    (raws : List RawTransaction) (msg : String)
    (h1 : raws ≠ []) (h2 : nm raws = .error msg) :
    processUpload P (.ok raws) nm po u db c =
      (.error .processingFailed, db, c) := by
  cases raws with
  | nil => exact absurd rfl h1
  | cons a as =>
    simp [processUpload, h2]

/-- Witness for C6: a one-row file whose normalization fails. -/
theorem malformed_batch_witness :
    processUpload sampleProcessors (.ok [⟨["x"]⟩])
        (fun _ => .error "malformed record")
        ⟨true, true, fun _ => true, true⟩ 1 [] emptyCache =
      (.error .processingFailed, [], emptyCache) :=
  malformed_batch_aborts_whole_upload sampleProcessors
    (fun _ => .error "malformed record")
    ⟨true, true, fun _ => true, true⟩ 1 [] emptyCache [⟨["x"]⟩]
    "malformed record" (by decide) rfl

/-- C7: persisting the batch is atomic — either `ProcessUpload` fails
with the persistence error and the store is unchanged (nothing of the
batch is committed and the error is propagated), or it succeeds and
the store gains exactly every row of the batch. -/
theorem persistence_all_or_nothing
    (P : Processors) (nm : List RawTransaction →
      Except String (List ProcessedTransaction))
    (po : PersistOracle) (u : Int) (db : DB) (c : Cache)
    (raws : List RawTransaction) (pts : List ProcessedTransaction)
    (h1 : raws ≠ []) (h2 : nm raws = .ok pts) (h3 : pts ≠ []) :
    (∃ e, processUpload P (.ok raws) nm po u db c = (.error e, db, c))
    ∨ processUpload P (.ok raws) nm po u db c =
        (.ok (processBatchResult P pts),
         db ++ pts.map (fun t => DBRow.mk u t),
         invalidateUserCache c u) := by
  cases raws with
  | nil => exact absurd rfl h1
  | cons a as =>
    cases pts with
    | nil => exact absurd rfl h3
    | cons p ps =>
      cases hpb : persistBatch po u db (p :: ps) with
      | error e =>
        left
        refine ⟨e, ?_⟩
        simp [processUpload, h2, hpb]
      | ok db2 =>
        right
        have hdb2 := persistBatch_ok_eq po u db (p :: ps) db2 hpb
        simp [processUpload, h2, hpb, hdb2]

/-- Witness for C7: a successfully normalized one-transaction batch
against a fully functioning store. -/
theorem persistence_witness :
    (∃ e, processUpload sampleProcessors (.ok [⟨["x"]⟩])
        (fun _ => .ok [sampleBuy1]) ⟨true, true, fun _ => true, true⟩
        1 [] emptyCache = (.error e, [], emptyCache))
    ∨ processUpload sampleProcessors (.ok [⟨["x"]⟩])
        (fun _ => .ok [sampleBuy1]) ⟨true, true, fun _ => true, true⟩
        1 [] emptyCache =
      (.ok (processBatchResult sampleProcessors [sampleBuy1]),
       [] ++ [sampleBuy1].map (fun t => DBRow.mk 1 t),
       invalidateUserCache emptyCache 1) :=
  persistence_all_or_nothing sampleProcessors (fun _ => .ok [sampleBuy1])
    ⟨true, true, fun _ => true, true⟩ 1 [] emptyCache [⟨["x"]⟩]
    [sampleBuy1] (by decide) rfl (by decide)

/-- C8: the report cache is advisory — under the consistency
discipline the service maintains, every getter returns the same value
on the given cache as on the no-op (empty) cache. -/
theorem cache_is_advisory (P : Processors) (db : DB) (u : Int) (c : Cache)
    (hc : cacheConsistent P db u c) :
    (getLatestUploadResult P c db u).1 =
      (getLatestUploadResult P emptyCache db u).1
    ∧ (getStockSaleDetails P c db u).1 =
        (getStockSaleDetails P emptyCache db u).1
    ∧ (getStockHoldings P c db u).1 =
        (getStockHoldings P emptyCache db u).1
    ∧ (getOptionHoldings P c db u).1 =
        (getOptionHoldings P emptyCache db u).1
    ∧ (getOptionSaleDetails P c db u).1 =
        (getOptionSaleDetails P emptyCache db u).1
    ∧ (getDividendTaxSummary P c db u).1 =
        (getDividendTaxSummary P emptyCache db u).1
    ∧ (getDividendTransactions c db u).1 =
        (getDividendTransactions emptyCache db u).1 := by
  obtain ⟨h1, h2, h3, h4, h5, h6, h7⟩ := hc
  obtain ⟨e1, e2, e3, e4, e5, e6, e7⟩ := emptyCache_consistent P db u
  exact ⟨by rw [getLatestUploadResult_eq_computed P db u c h1,
          getLatestUploadResult_eq_computed P db u emptyCache e1],
    by rw [getStockSaleDetails_eq_computed P db u c h2,
          getStockSaleDetails_eq_computed P db u emptyCache e2],
    by rw [getStockHoldings_eq_computed P db u c h3,
          getStockHoldings_eq_computed P db u emptyCache e3],
    by rw [getOptionHoldings_eq_computed P db u c h5,
          getOptionHoldings_eq_computed P db u emptyCache e5],
    by rw [getOptionSaleDetails_eq_computed P db u c h4,
          getOptionSaleDetails_eq_computed P db u emptyCache e4],
    by rw [getDividendTaxSummary_eq_computed P db u c h6,
          getDividendTaxSummary_eq_computed P db u emptyCache e6],
    by rw [getDividendTransactions_eq_computed db u c h7,
          getDividendTransactions_eq_computed db u emptyCache e7]⟩

/-- Witness for C8: the no-op cache itself satisfies the consistency
discipline, so the equivalence holds at it. -/
theorem cache_is_advisory_witness :
    (getLatestUploadResult sampleProcessors emptyCache [] 1).1 =
      (getLatestUploadResult sampleProcessors emptyCache [] 1).1
    ∧ (getStockSaleDetails sampleProcessors emptyCache [] 1).1 =
        (getStockSaleDetails sampleProcessors emptyCache [] 1).1
    ∧ (getStockHoldings sampleProcessors emptyCache [] 1).1 =
        (getStockHoldings sampleProcessors emptyCache [] 1).1
    ∧ (getOptionHoldings sampleProcessors emptyCache [] 1).1 =
        (getOptionHoldings sampleProcessors emptyCache [] 1).1
    ∧ (getOptionSaleDetails sampleProcessors emptyCache [] 1).1 =
        (getOptionSaleDetails sampleProcessors emptyCache [] 1).1
    ∧ (getDividendTaxSummary sampleProcessors emptyCache [] 1).1 =
        (getDividendTaxSummary sampleProcessors emptyCache [] 1).1
    ∧ (getDividendTransactions emptyCache [] 1).1 =
        (getDividendTransactions emptyCache [] 1).1 :=
  cache_is_advisory sampleProcessors [] 1 emptyCache
    (emptyCache_consistent sampleProcessors [] 1)

/-- C10 (counterexample to the claim as stated): on a stored history
consisting of one `dividendtax` transaction, the singleton variant's
`GetDividendTransactions` returns the empty list, not the
dividend-or-dividendtax subsequence (which is the whole input). -/
theorem singleton_getter_drops_dividendtax :
    singletonGetDividendTransactions (some [sampleDividendTaxTx]) =
      .ok GoSlice.empty
    ∧ [sampleDividendTaxTx].filter isDividendTx = [sampleDividendTaxTx]
    ∧ singletonGetDividendTransactions (some [sampleDividendTaxTx]) ≠
        .ok ⟨false, [sampleDividendTaxTx].filter isDividendTx⟩ := by
  refine ⟨?_, ?_, ?_⟩ <;>
    norm_num +decide [singletonGetDividendTransactions,
      singletonDividendPred, isDividendTx, goToLower, GoSlice.empty,
      sampleDividendTaxTx, sampleBuy1]

/-- C10 (amended): every dividend-list operation of the cache-backed
service — the list assembled by `ProcessUpload`, the one assembled by
`GetLatestUploadResult`, and `GetDividendTransactions` — returns
exactly the order-preserving subsequence of its input whose
lower-cased order type is `dividend` or `dividendtax`; the singleton
variant's `GetDividendTransactions` instead returns exactly the
subsequence whose non-empty order type lower-cases to `dividend`
(dropping `dividendtax` rows). -/
theorem dividend_lists_are_filtered_subsequences :
    ∀ (P : Processors) (txs : List ProcessedTransaction) (db : DB) (u : Int),
      (appendDividends GoSlice.nilSlice txs).toList = txs.filter isDividendTx
      ∧ (processBatchResult P txs).dividendTransactionsList.toList =
          txs.filter isDividendTx
      ∧ (computeUserReport P txs).dividendTransactionsList.toList =
          txs.filter isDividendTx
      ∧ (getDividendTransactions emptyCache db u).1 =
          .ok ⟨false,
            (fetchUserProcessedTransactions db u).filter isDividendTx⟩
      ∧ (txs.filter isDividendTx).Sublist txs
      ∧ singletonGetDividendTransactions (some txs) =
          .ok ⟨false, txs.filter singletonDividendPred⟩
      ∧ (txs.filter singletonDividendPred).Sublist txs := by
  intro P txs db u
  have happ : ∀ ts : List ProcessedTransaction,
      (appendDividends GoSlice.nilSlice ts).toList = ts.filter isDividendTx := by
    intro ts
    rw [appendDividends, foldl_push_toList isDividendTx ts GoSlice.nilSlice]
    simp [GoSlice.nilSlice]
  refine ⟨happ txs, happ txs, happ txs, ?_, List.filter_sublist txs, ?_,
    List.filter_sublist txs⟩
  · rw [getDividendTransactions]
    show (let txs2 := fetchUserProcessedTransactions db u
      let dividends := if txs2.isEmpty then GoSlice.empty
        else appendDividends GoSlice.empty txs2
      ((.ok dividends, cacheSet emptyCache (ckDividendTxns u)
        (.divTxns dividends)) :
        Except Err (GoSlice ProcessedTransaction) × Cache)).1 = _
    by_cases he : (fetchUserProcessedTransactions db u).isEmpty
    · have : fetchUserProcessedTransactions db u = [] :=
        List.isEmpty_iff.mp he
      simp [he, this, GoSlice.empty]
    · simp only [he, if_false, Bool.false_eq_true]
      unfold appendDividends GoSlice.empty
      rw [foldl_push_eq isDividendTx _ []]
      simp
  · rw [singletonGetDividendTransactions]
    unfold GoSlice.empty
    rw [foldl_push_eq singletonDividendPred txs []]
    simp

end Taxfolio
